import Mathlib

/-!
Verification development for the hotel field-completion reconciliation engine.

The JavaScript source is shallowly embedded: records (JS objects whose values
come from parsed JSON or database rows) are association lists from string keys
to `JsValue`; an absent key is modelled by `Option.none` at lookup, which also
covers the JS `undefined` result of reading an absent property.  Values flowing
through the engine originate from JSON parsing or SQL rows, so the value type
has no `undefined` inhabitant.  Asynchronous database and network effects are
passed in as explicit outcome parameters (`Except` values / oracles).
-/

/-- A JavaScript value as it can occur in this pipeline (JSON / SQL sourced). -/
inductive JsValue where
  | vNull
  | vStr (s : String)
  | vNum (n : Int)
  | vBool (b : Bool)
deriving DecidableEq, Repr

/-- A JS object: ordered association list of properties. -/
abbrev JsRec := List (String × JsValue)

/-- Property read `obj[key]`: first binding wins; `none` models `undefined`. -/
def getValue : JsRec → String → Option JsValue
  | [], _ => none
  | kv :: rest, key => if kv.1 = key then some kv.2 else getValue rest key

/-- Property write `obj[key] = v`: replace the first binding in place, else append. -/
def setValue : JsRec → String → JsValue → JsRec
  | [], key, v => [(key, v)]
  | kv :: rest, key, v =>
    if kv.1 = key then (key, v) :: rest else kv :: setValue rest key v


/-- A schema entry: field name plus the capture instruction sent to the fetcher. -/
structure FieldDef where
  name : String
  capture_description : String
deriving DecidableEq, Repr

/-- Primary/Principal fields (basic fields), from constants.js. -/
def MD_PR_FIELDS : List FieldDef :=
  [ ⟨"name", "hotel name"⟩,
    ⟨"city_state_country", "city, state, country"⟩,
    ⟨"address", "street address"⟩,
    ⟨"zipcode", "zipcode or postal code"⟩,
    ⟨"description", "hotel description"⟩,
    ⟨"email", "contact email"⟩,
    ⟨"main_phone", "main phone number"⟩,
    ⟨"other_phones", "All phone numbers with descriptions. e.g: \"Front Desk: (123) 456-7890\""⟩ ]

/-- Category text fields (16 categories), from constants.js. -/
def MD_CAT_FIELDS : List FieldDef :=
  [ ⟨"hotel_information", "Hotel Information - List high level information about the property"⟩,
    ⟨"accessibility", "Accessibility - ADA-compliant rooms, Accessible entrances, restrooms, and elevators, Assistive devices or services"⟩,
    ⟨"amenities", "Amenities - Feature, facility, or service offered to enhance the guest experience"⟩,
    ⟨"cleanliness_enhancements", "Cleanliness enhancements - Specific improvements or additional measures to maintain a higher level of hygiene and sanitation"⟩,
    ⟨"food_beverage", "Food & beverage - Dining, bar, café, and catering services provided"⟩,
    ⟨"guest_rooms", "Guest Rooms - Guest rooms types"⟩,
    ⟨"guest_services_front_desk", "Guest Services / Front Desk - Bell/porter service, Concierge, Lost & found inquiries, Luggage storage, Wake-up calls"⟩,
    ⟨"housekeeping_laundry", "Housekeeping / Laundry - Cleaning, room upkeep, linens, guest laundry, guest clothing care"⟩,
    ⟨"local_area_information", "Local Area Information - Attractions, services, and amenities outside the hotel"⟩,
    ⟨"meeting_events", "Meeting & events - Spaces, services, and resources for hosting meetings, conferences, banquets, weddings, and social gatherings"⟩,
    ⟨"on_property_convenience", "On property convenience - Practical, guest-facing services that make the stay more seamless, accessible, and comfortable"⟩,
    ⟨"parking_transportation", "Parking & transportation - Services, instructions, and logistics related to guest vehicles, access to the property, and travel options to and from the hotel"⟩,
    ⟨"policies", "Policies - Formal set of guidelines, rules, or procedures"⟩,
    ⟨"recreation_fitness", "Recreation & fitness - Facilities, activities, and services that support leisure, wellness, and physical activity"⟩,
    ⟨"safety_security", "Safety & Security - Emergency procedures (fire exits, severe weather protocols, Safe deposit boxes or in-room safes, Security staff or surveillance)"⟩,
    ⟨"technology_business_services", "Technology / Business Services - Business center computers, printing, fax, and copying, Wi-Fi details, Public computer access"⟩ ]

/-- All fields - merge of primary and category fields. -/
def MD_ALL_FIELDS : List FieldDef := MD_PR_FIELDS ++ MD_CAT_FIELDS

/-- Boolean fields - none in simplified structure. -/
def BOOLEAN_FIELDS : List String := []

/-- index.js: `MD_ALL_FIELDS.map(f => f.name)`. -/
def allFieldNames : List String := MD_ALL_FIELDS.map (fun f => f.name)

/-- EmptinessPolicy from the spec: the emptiness test the service inlines
(`value === null || value === undefined || value === '' || value === 'N/A'`);
`none` stands for an absent/undefined lookup. -/
def isEmpty (value : Option JsValue) : Bool :=
  decide (value = none ∨ value = some JsValue.vNull ∨ value = some (JsValue.vStr "")
    ∨ value = some (JsValue.vStr "N/A"))

/-- MarketDataService.getEmptyFields. -/
def getEmptyFields (existingData : Option JsRec) (allFields : List String) : List String :=
  match existingData with
  | none => allFields
  | some record =>
    allFields.filter (fun fieldName =>
      decide (getValue record fieldName = none
        ∨ getValue record fieldName = some JsValue.vNull
        ∨ getValue record fieldName = some (JsValue.vStr "")
        ∨ getValue record fieldName = some (JsValue.vStr "N/A")))

/-- One step of MarketDataService.mergeDataSafely: assign `merged[key] = newValue`
only when the new value passes the non-emptiness test of the source. -/
def mergeStep (merged : JsRec) (kv : String × JsValue) : JsRec :=
  if kv.2 ≠ JsValue.vNull ∧ kv.2 ≠ JsValue.vStr "" ∧ kv.2 ≠ JsValue.vStr "N/A" then
    setValue merged kv.1 kv.2
  else merged

/-- MarketDataService.mergeDataSafely: copy of the accumulator, then the
`Object.keys(newData).forEach` assignment loop. -/
def mergeDataSafely (existingData newData : JsRec) : JsRec :=
  newData.foldl mergeStep existingData

/-- `validFieldNames` set built in MarketDataService.filterValidFields. -/
def validFieldNames : List String := MD_ALL_FIELDS.map (fun f => f.name)

/-- Key admission test of filterValidFields:
`validFieldNames.has(key) || key === 'hotel_uuid'`. -/
def isValidKey (key : String) : Bool :=
  validFieldNames.contains key || key == "hotel_uuid"

/-- One step of MarketDataService.filterValidFields: copy an admitted entry. -/
def filterStep (filteredData : JsRec) (kv : String × JsValue) : JsRec :=
  if isValidKey kv.1 then setValue filteredData kv.1 kv.2 else filteredData

/-- MarketDataService.filterValidFields. -/
def filterValidFields (data : JsRec) : JsRec :=
  data.foldl filterStep []

/-- MarketDataService.booleanKeysList: `[...BOOLEAN_FIELDS]`. -/
def booleanKeysList : List String := BOOLEAN_FIELDS

/-- String branch of MarketDataService.convertBooleanValues. -/
def convertBooleanString (s : String) : JsValue :=
  let flatValue := s.toLower.replace " " ""
  if flatValue = "true" ∨ flatValue = "yes" ∨ flatValue = "ok" ∨ flatValue = "y"
      ∨ flatValue = "1" then JsValue.vNum 1
  else if flatValue = "false" ∨ flatValue = "no" ∨ flatValue = "n" ∨ flatValue = "0" then
    JsValue.vNum 0
  else if flatValue = "" ∨ flatValue = "n/a" then JsValue.vNull
  else JsValue.vNull

/-- Per-value branch chain of MarketDataService.convertBooleanValues
(boolean, number 0/1, string, null, unknown type). -/
def convertBooleanValue (value : JsValue) : JsValue :=
  match value with
  | JsValue.vBool b => JsValue.vNum (if b then 1 else 0)
  | JsValue.vNum n => if n = 0 then JsValue.vNum 0
      else if n = 1 then JsValue.vNum 1 else JsValue.vNull
  | JsValue.vStr s => convertBooleanString s
  | JsValue.vNull => JsValue.vNull

/-- MarketDataService.convertBooleanValues: shallow copy, then the
`booleanKeysList.forEach` loop (skip keys not present in the input). -/
def convertBooleanValues (data : JsRec) : JsRec :=
  booleanKeysList.foldl
    (fun convertedData key =>
      if (getValue data key).isNone then convertedData
      else
        match getValue convertedData key with
        | some v => setValue convertedData key (convertBooleanValue v)
        | none => setValue convertedData key JsValue.vNull)
    data

/-- The destructuring `const { hotel_uuid, ...dataWithoutUuid } = data` in
MarketDataService.updateMarketData. -/
def removeUuidKey (data : JsRec) : JsRec :=
  data.filter (fun kv => kv.1 != "hotel_uuid")

/-- The SQL parameter coercion `fineData[col] ?? null`. -/
def jsCoalesceNull (o : Option JsValue) : JsValue :=
  match o with
  | some v => v
  | none => JsValue.vNull

/-- The column/value list of the INSERT statement built by insertMarketData. -/
structure InsertQuery where
  cols : List String
  vals : List JsValue
deriving DecidableEq, Repr

/-- Query-building part of MarketDataService.insertMarketData: filter, boolean
conversion, column list, `No valid fields` error, placeholder values. -/
def insertPlan (data : JsRec) : Except String InsertQuery :=
  let filteredData := filterValidFields data
  let fineData := convertBooleanValues filteredData
  let columns := fineData.map (fun kv => kv.1)
  if columns = [] then Except.error "No valid fields provided for insertion"
  else Except.ok ⟨columns, columns.map (fun col => jsCoalesceNull (getValue fineData col))⟩

/-- MarketDataService.insertMarketData given the database outcome for the built
query; the catch block rethrows, so the executor outcome passes through. -/
def insertMarketData (data : JsRec) (exec : InsertQuery → Except String Nat) :
    Except String Nat :=
  match insertPlan data with
  | Except.error e => Except.error e
  | Except.ok q => exec q

/-- The SET clause of the UPDATE statement built by updateMarketData; the query
always appends the server-side `updated_at = CURRENT_TIMESTAMP` touch. -/
structure UpdateQuery where
  cols : List String
  vals : List JsValue
  touchesUpdatedAt : Bool
  whereId : Nat
deriving DecidableEq, Repr

/-- Query-building part of MarketDataService.updateMarketData: drop hotel_uuid,
filter, boolean conversion; `none` is the zero-valid-fields no-op early return. -/
def updatePlan (id : Nat) (data : JsRec) : Option UpdateQuery :=
  let dataWithoutUuid := removeUuidKey data
  let filteredData := filterValidFields dataWithoutUuid
  let fineData := convertBooleanValues filteredData
  let columns := fineData.map (fun kv => kv.1)
  if columns = [] then none
  else some ⟨columns, columns.map (fun col => jsCoalesceNull (getValue fineData col)), true, id⟩

/-- MarketDataService.updateMarketData given the database outcome: no-op returns
affected-count 0, otherwise the executor outcome passes through (rethrow). -/
def updateMarketData (id : Nat) (data : JsRec) (exec : UpdateQuery → Except String Nat) :
    Except String Nat :=
  match updatePlan id data with
  | none => Except.ok 0
  | some q => exec q

/-- MarketDataService.getIdByUuid applied to the lookup outcome: a found row
yields its id, an absent row yields 0, and the catch block also returns 0. -/
def getIdByUuid (queryResult : Except String (Option Nat)) : Nat :=
  match queryResult with
  | Except.ok (some id) => id
  | Except.ok none => 0
  | Except.error _ => 0

/-- Terminal condition of the attempt loop in index.js processHotelWithRetry:
all fields filled (either break), the while-condition running out after a
still-missing success, or the final-attempt fetch failure break. -/
inductive LoopExit where
  | allFilled
  | attemptsSpent
  | errorExhausted
deriving DecidableEq, Repr

/-- The attempt loop of index.js processHotelWithRetry.  `fetch` is the
AIService.fetchHotelData outcome per attempt number; `attempt` counts attempts
already made; `fuel` is `maxAttempts - attempt`, the remaining iterations of
`while (attempt < maxAttempts)`; `calls` counts external fetch invocations. -/
def retryGo (fetch : Nat → Except String JsRec) (maxAttempts : Nat) :
    Nat → Nat → JsRec → Nat → JsRec × Nat × LoopExit
  | 0, _attempt, acc, calls => (acc, calls, LoopExit.attemptsSpent)
  | Nat.succ fuel, attempt, acc, calls =>
    let a := attempt + 1
    let emptyFields := getEmptyFields (some acc) allFieldNames
    if emptyFields = [] then (acc, calls, LoopExit.allFilled)
    else
      match fetch a with
      | Except.ok newData =>
        let acc2 := mergeDataSafely acc newData
        let remaining := getEmptyFields (some acc2) allFieldNames
        if remaining = [] then (acc2, calls + 1, LoopExit.allFilled)
        else retryGo fetch maxAttempts fuel a acc2 (calls + 1)
      | Except.error _ =>
        if maxAttempts ≤ a then (acc, calls + 1, LoopExit.errorExhausted)
        else retryGo fetch maxAttempts fuel a acc (calls + 1)

/-- The database write issued by the save phase of index.js
processHotelWithRetry: update when a record exists and its id lookup is
positive, silently skip when it is not, insert (uuid attached) when no record
exists. -/
inductive SaveAction where
  | update (id : Nat) (data : JsRec)
  | skip
  | insert (data : JsRec)
deriving DecidableEq, Repr

/-- Save phase of index.js processHotelWithRetry (after the attempt loop). -/
def savePhase (existingData : Option JsRec) (idLookup : Except String (Option Nat))
    (uuid : String) (accumulatedData : JsRec) : SaveAction :=
  match existingData with
  | some _ =>
    let existingId := getIdByUuid idLookup
    if 0 < existingId then SaveAction.update existingId accumulatedData
    else SaveAction.skip
  | none => SaveAction.insert (setValue accumulatedData "hotel_uuid" (JsValue.vStr uuid))

/-- Observable result of one entity-processing cycle. -/
structure RunResult where
  accumulated : JsRec
  fetchCalls : Nat
  exit : LoopExit
  save : SaveAction
deriving DecidableEq, Repr

/-- index.js processHotelWithRetry: run the attempt loop from an empty
accumulator, then the save phase on the final accumulator.  `existingData` is
the MarketDataService.getMarketDataByUuid result and `idLookup` the raw
database outcome behind MarketDataService.getIdByUuid. -/
def processHotelWithRetry (existingData : Option JsRec)
    (idLookup : Except String (Option Nat)) (uuid : String)
    (fetch : Nat → Except String JsRec) (maxAttempts : Nat) : RunResult :=
  let r := retryGo fetch maxAttempts maxAttempts 0 [] 0
  { accumulated := r.1
    fetchCalls := r.2.1
    exit := r.2.2
    save := savePhase existingData idLookup uuid r.1 }

/-- A persisted record in which every schema field is filled. -/
def fullRecord : JsRec := allFieldNames.map (fun n => (n, JsValue.vStr "filled"))

/-- Concrete accumulator used to instantiate the merge theorems. -/
def c2A : JsRec := [("name", JsValue.vStr "old")]

/-- Concrete fetch result used to instantiate the merge theorems. -/
def c2B : JsRec := [("name", JsValue.vStr "new"), ("email", JsValue.vStr "N/A")]

/-- Concrete input of the schema-filter safety scenario. -/
def c5Data : JsRec :=
  [("malicious_column", JsValue.vStr "DROP TABLE"), ("name", JsValue.vStr "Inn")]

/-- Partial fetch result of the exhausted-retry scenario. -/
def c6Partial : JsRec := [("name", JsValue.vStr "Inn")]

/-- Fetch oracle of the exhausted-retry scenario: attempt 1 succeeds with
partial data, every later attempt fails. -/
def c6Fetch : Nat → Except String JsRec :=
  fun k => if k = 1 then Except.ok c6Partial else Except.error "boom"

/-- Concrete update input that carries the identifier and a foreign key. -/
def c7Data : JsRec :=
  [("hotel_uuid", JsValue.vStr "u1"), ("name", JsValue.vStr "Inn"),
   ("evil_column", JsValue.vStr "x")]

/-- The update query the engine builds from c7Data for row 5. -/
def c7Query : UpdateQuery := ⟨["name"], [JsValue.vStr "Inn"], true, 5⟩

/-- Concrete update input with no valid mutable field at all. -/
def c7NoFieldData : JsRec :=
  [("hotel_uuid", JsValue.vStr "u1"), ("junk", JsValue.vStr "x")]

/-- Concrete insert input used to instantiate the error-propagation theorem. -/
def c3InsertData : JsRec := [("name", JsValue.vStr "Inn")]

/-- The insert query the engine builds from c3InsertData. -/
def c3InsertQuery : InsertQuery := ⟨["name"], [JsValue.vStr "Inn"]⟩

/-- Concrete record used to instantiate the boolean-conversion theorem. -/
def c10Data : JsRec := [("name", JsValue.vStr "Inn"), ("junk", JsValue.vStr "x")]


theorem getValue_setValue_self (r : JsRec) (k : String) (v : JsValue) :
    getValue (setValue r k v) k = some v := by
  induction r with
  | nil => simp [setValue, getValue]
  | cons kv rest ih =>
    by_cases h : kv.1 = k
    · simp [setValue, h, getValue]
    · simp [setValue, h, getValue, ih]

theorem getValue_setValue_ne (r : JsRec) (k k' : String) (v : JsValue) (h : k ≠ k') :
    getValue (setValue r k v) k' = getValue r k' := by
  induction r with
  | nil => simp [setValue, getValue, h]
  | cons kv rest ih =>
    by_cases hk : kv.1 = k
    · simp [setValue, hk, getValue, h]
    · simp [setValue, hk, getValue, ih]

theorem setValue_of_not_mem (r : JsRec) (k : String) (v : JsValue)
    (h : k ∉ r.map Prod.fst) : setValue r k v = r ++ [(k, v)] := by
  induction r with
  | nil => simp [setValue]
  | cons kv rest ih =>
    simp only [List.map_cons, List.mem_cons] at h
    push_neg at h
    simp [setValue, Ne.symm h.1, ih h.2]

theorem setValue_map_fst (r : JsRec) (k : String) (v : JsValue) :
    (setValue r k v).map Prod.fst =
      if k ∈ r.map Prod.fst then r.map Prod.fst else r.map Prod.fst ++ [k] := by
  induction r with
  | nil => simp [setValue]
  | cons kv rest ih =>
    by_cases hk : kv.1 = k
    · simp [setValue, hk]
    · simp only [setValue, if_neg hk, List.map_cons, ih]
      by_cases hm : k ∈ rest.map Prod.fst
      · simp [hm, Ne.symm hk]
      · simp [hm, Ne.symm hk]

theorem mem_map_fst_setValue (r : JsRec) (k k' : String) (v : JsValue)
    (h : k' ∈ (setValue r k v).map Prod.fst) :
    k' ∈ r.map Prod.fst ∨ k' = k := by
  rw [setValue_map_fst] at h
  by_cases hm : k ∈ r.map Prod.fst
  · rw [if_pos hm] at h; exact Or.inl h
  · rw [if_neg hm] at h
    rcases List.mem_append.mp h with h' | h'
    · exact Or.inl h'
    · exact Or.inr (List.mem_singleton.mp h')

theorem setValue_map_fst_nodup (r : JsRec) (k : String) (v : JsValue)
    (h : (r.map Prod.fst).Nodup) : ((setValue r k v).map Prod.fst).Nodup := by
  rw [setValue_map_fst]
  by_cases hm : k ∈ r.map Prod.fst
  · rwa [if_pos hm]
  · rw [if_neg hm]
    rw [List.nodup_append]
    refine ⟨h, List.nodup_singleton k, ?_⟩
    intro x hx hk
    rw [List.mem_singleton] at hk
    exact hm (hk ▸ hx)
theorem mergeCond_iff (v : JsValue) :
    (v ≠ JsValue.vNull ∧ v ≠ JsValue.vStr "" ∧ v ≠ JsValue.vStr "N/A")
      ↔ isEmpty (some v) = false := by
  simp [isEmpty]

theorem mergeStep_of_nonempty (merged : JsRec) (kv : String × JsValue)
    (h : isEmpty (some kv.2) = false) :
    mergeStep merged kv = setValue merged kv.1 kv.2 := by
  rw [mergeStep, if_pos ((mergeCond_iff kv.2).mpr h)]

theorem mergeStep_of_empty (merged : JsRec) (kv : String × JsValue)
    (h : isEmpty (some kv.2) = true) :
    mergeStep merged kv = merged := by
  rw [mergeStep, if_neg]
  intro hc
  rw [(mergeCond_iff kv.2).mp hc] at h
  exact Bool.false_ne_true h

theorem getValue_eq_none_of_not_mem (r : JsRec) (k : String)
    (h : k ∉ r.map Prod.fst) : getValue r k = none := by
  induction r with
  | nil => rfl
  | cons kv rest ih =>
    simp only [List.map_cons, List.mem_cons] at h
    push_neg at h
    simp only [getValue, if_neg (Ne.symm h.1)]
    exact ih h.2

/-- Pointwise characterization of mergeDataSafely on a well-formed (duplicate
free) incoming record: a non-empty incoming value wins, anything else leaves
the accumulator binding untouched. -/
theorem getValue_mergeDataSafely (A B : JsRec) (k : String)
    (hB : (B.map Prod.fst).Nodup) :
    getValue (mergeDataSafely A B) k =
      match getValue B k with
      | some v => if isEmpty (some v) then getValue A k else some v
      | none => getValue A k := by
  induction B generalizing A with
  | nil => simp [mergeDataSafely, getValue]
  | cons kv rest ih =>
    simp only [List.map_cons, List.nodup_cons] at hB
    have hstep : mergeDataSafely A (kv :: rest) = mergeDataSafely (mergeStep A kv) rest := by
      simp [mergeDataSafely]
    rw [hstep, ih (mergeStep A kv) hB.2]
    by_cases hk : kv.1 = k
    · have hrest : getValue rest k = none :=
        getValue_eq_none_of_not_mem rest k (hk ▸ hB.1)
      have hBk : getValue (kv :: rest) k = some kv.2 := by
        simp [getValue, hk]
      simp only [hrest, hBk]
      by_cases hv : isEmpty (some kv.2)
      · rw [if_pos hv, mergeStep_of_empty A kv hv]
      · rw [if_neg hv, mergeStep_of_nonempty A kv (Bool.not_eq_true _ ▸ hv), ← hk]
        exact getValue_setValue_self A kv.1 kv.2
    · have hBk : getValue (kv :: rest) k = getValue rest k := by
        simp [getValue, hk]
      have hstepk : getValue (mergeStep A kv) k = getValue A k := by
        by_cases hv : isEmpty (some kv.2)
        · rw [mergeStep_of_empty A kv hv]
        · rw [mergeStep_of_nonempty A kv (Bool.not_eq_true _ ▸ hv)]
          exact getValue_setValue_ne A kv.1 k kv.2 hk
      rw [hBk, hstepk]

theorem filterValid_go (d : JsRec) :
    ∀ acc : JsRec, (∀ k, k ∈ d.map Prod.fst → k ∉ acc.map Prod.fst) →
    (d.map Prod.fst).Nodup →
    d.foldl filterStep acc = acc ++ d.filter (fun kv => isValidKey kv.1) := by
  induction d with
  | nil => intro acc _ _; simp
  | cons kv rest ih =>
    intro acc hdisj hnd
    simp only [List.map_cons, List.nodup_cons] at hnd
    have hkacc : kv.1 ∉ acc.map Prod.fst :=
      hdisj kv.1 (by simp)
    rw [List.foldl_cons]
    by_cases hv : isValidKey kv.1
    · have hstep : filterStep acc kv = acc ++ [kv] := by
        rw [filterStep, if_pos hv, setValue_of_not_mem acc kv.1 kv.2 hkacc]
      rw [hstep, ih (acc ++ [kv]) ?_ hnd.2]
      · rw [List.append_assoc, List.singleton_append, List.filter_cons]
        simp [hv]
      · intro k hk
        simp only [List.map_append, List.map_cons, List.map_nil, List.mem_append,
          List.mem_singleton]
        push_neg
        exact ⟨hdisj k (by simp [hk]), fun he => hnd.1 (he ▸ hk)⟩
    · have hstep : filterStep acc kv = acc := by
        rw [filterStep, if_neg hv]
      rw [hstep, ih acc ?_ hnd.2]
      · rw [List.filter_cons]
        simp [hv]
      · intro k hk
        exact hdisj k (by simp [hk])

/-- On a well-formed (duplicate-free) record, filterValidFields is exactly the
key filter: admitted entries kept in order with their values, others dropped. -/
theorem filterValid_eq_filter (d : JsRec) (hd : (d.map Prod.fst).Nodup) :
    filterValidFields d = d.filter (fun kv => isValidKey kv.1) := by
  rw [filterValidFields, filterValid_go d [] (by simp) hd, List.nil_append]

theorem filterValid_go_keys (d : JsRec) :
    ∀ (acc : JsRec) (k : String), k ∈ (d.foldl filterStep acc).map Prod.fst →
      k ∈ acc.map Prod.fst ∨ (isValidKey k = true ∧ k ∈ d.map Prod.fst) := by
  induction d with
  | nil => intro acc k hk; exact Or.inl hk
  | cons kv rest ih =>
    intro acc k hk
    rw [List.foldl_cons] at hk
    rcases ih (filterStep acc kv) k hk with h | h
    · by_cases hv : isValidKey kv.1
      · rw [filterStep, if_pos hv] at h
        rcases mem_map_fst_setValue acc kv.1 k kv.2 h with h' | h'
        · exact Or.inl h'
        · exact Or.inr ⟨h' ▸ hv, by simp [h']⟩
      · rw [filterStep, if_neg hv] at h
        exact Or.inl h
    · exact Or.inr ⟨h.1, by simp [h.2]⟩

/-- Every key of a filtered record passed the admission test and came from the
input (no well-formedness assumption needed). -/
theorem filterValid_mem_keys (d : JsRec) (k : String)
    (h : k ∈ (filterValidFields d).map Prod.fst) :
    isValidKey k = true ∧ k ∈ d.map Prod.fst := by
  rcases filterValid_go_keys d [] k h with h' | h'
  · simp at h'
  · exact h'

theorem filterValid_go_nodup (d : JsRec) :
    ∀ acc : JsRec, (acc.map Prod.fst).Nodup →
      ((d.foldl filterStep acc).map Prod.fst).Nodup := by
  induction d with
  | nil => intro acc h; exact h
  | cons kv rest ih =>
    intro acc h
    rw [List.foldl_cons]
    refine ih (filterStep acc kv) ?_
    by_cases hv : isValidKey kv.1
    · rw [filterStep, if_pos hv]
      exact setValue_map_fst_nodup acc kv.1 kv.2 h
    · rwa [filterStep, if_neg hv]

/-- filterValidFields always produces a well-formed record. -/
theorem filterValid_nodup (d : JsRec) :
    ((filterValidFields d).map Prod.fst).Nodup :=
  filterValid_go_nodup d [] (by simp)

/-- Because booleanKeysList is empty, the boolean conversion pass returns its
input record unchanged. -/
theorem convertBooleanValues_eq_id (data : JsRec) :
    convertBooleanValues data = data := rfl

/-- On a well-formed record, reading back each key in order reproduces the
stored values, so the SQL placeholder values are the stored values verbatim. -/
theorem map_getValue_eq_vals (m : JsRec) (hm : (m.map Prod.fst).Nodup) :
    (m.map Prod.fst).map (fun col => jsCoalesceNull (getValue m col)) =
      m.map Prod.snd := by
  induction m with
  | nil => rfl
  | cons kv rest ih =>
    simp only [List.map_cons, List.nodup_cons] at hm
    simp only [List.map_cons]
    refine congrArg₂ List.cons ?_ ?_
    · simp [getValue, jsCoalesceNull]
    · have hcongr : ∀ col ∈ rest.map Prod.fst,
          jsCoalesceNull (getValue (kv :: rest) col) =
            jsCoalesceNull (getValue rest col) := by
        intro col hcol
        have hne : kv.1 ≠ col := fun he => hm.1 (he ▸ hcol)
        simp [getValue, hne]
      rw [List.map_congr_left hcongr, ih hm.2]

/-- Against the empty accumulator every schema field counts as empty. -/
theorem getEmptyFields_empty_acc (fields : List String) :
    getEmptyFields (some ([] : JsRec)) fields = fields := by
  rw [getEmptyFields]
  refine List.filter_eq_self.mpr ?_
  intro a _
  simp [getValue]

theorem allFieldNames_ne_nil : allFieldNames ≠ [] := by decide

/-- The fetch-call counter never decreases across the attempt loop. -/
theorem retryGo_calls_le (fetch : Nat → Except String JsRec) (maxAttempts : Nat) :
    ∀ fuel attempt acc calls,
      calls ≤ (retryGo fetch maxAttempts fuel attempt acc calls).2.1 := by
  intro fuel
  induction fuel with
  | zero => intro attempt acc calls; simp [retryGo]
  | succ f ih =>
    intro attempt acc calls
    rw [retryGo]
    by_cases he : getEmptyFields (some acc) allFieldNames = []
    · simp [he]
    · rw [if_neg he]
      cases hf : fetch (attempt + 1) with
      | ok newData =>
        by_cases hr : getEmptyFields (some (mergeDataSafely acc newData)) allFieldNames = []
        · simp [hr]
        · simp only [hr, if_neg hr]
          exact le_trans (Nat.le_succ calls) (ih (attempt + 1) (mergeDataSafely acc newData) (calls + 1))
      | error e =>
        by_cases hm : maxAttempts ≤ attempt + 1
        · simp [hm]
        · simp only [if_neg hm]
          exact le_trans (Nat.le_succ calls) (ih (attempt + 1) acc (calls + 1))

/-- Once every remaining fetch attempt fails, the loop runs the attempt budget
down, keeps the accumulator unchanged, and exits through the final-attempt
failure break. -/
theorem retryGo_allFail (fetch : Nat → Except String JsRec) (maxAttempts : Nat) :
    ∀ fuel attempt acc calls, 1 ≤ fuel → attempt + fuel = maxAttempts →
      (∀ k, attempt < k → ∃ msg, fetch k = Except.error msg) →
      getEmptyFields (some acc) allFieldNames ≠ [] →
      retryGo fetch maxAttempts fuel attempt acc calls =
        (acc, calls + fuel, LoopExit.errorExhausted) := by
  intro fuel
  induction fuel with
  | zero => intro attempt acc calls h1; omega
  | succ f ih =>
    intro attempt acc calls _ hsum hfail hempty
    obtain ⟨msg, hmsg⟩ := hfail (attempt + 1) (Nat.lt_succ_self attempt)
    rw [retryGo, if_neg hempty, hmsg]
    by_cases hf : f = 0
    · subst hf
      rw [if_pos (by omega)]
    · rw [if_neg (by omega)]
      rw [ih (attempt + 1) acc (calls + 1) (by omega) (by omega)
        (fun k hk => hfail k (by omega)) hempty]
      refine congrArg (fun c => (acc, c, LoopExit.errorExhausted)) ?_
      omega

/-- C4: isEmpty is true exactly for null, undefined/absent, the empty string,
and the exact-case string "N/A" (so the lowercase "n/a" is not empty);
getEmptyFields returns the full input sequence when the record is absent and
otherwise the order-preserving subsequence of field names whose value in the
record is empty. -/
theorem spec_c4_emptiness :
    (∀ value : Option JsValue, isEmpty value = true ↔
      (value = none ∨ value = some JsValue.vNull ∨ value = some (JsValue.vStr "")
        ∨ value = some (JsValue.vStr "N/A")))
    ∧ isEmpty (some (JsValue.vStr "n/a")) = false
    ∧ (∀ fields : List String, getEmptyFields none fields = fields)
    ∧ (∀ (r : JsRec) (fields : List String),
        getEmptyFields (some r) fields = fields.filter (fun n => isEmpty (getValue r n)))
    ∧ (∀ (r : JsRec) (fields : List String),
        (getEmptyFields (some r) fields).Sublist fields) := by
  refine ⟨?_, ?_, ?_, ?_, ?_⟩
  · intro value
    simp [isEmpty]
  · decide
  · intro fields; rfl
  · intro r fields; rfl
  · intro r fields
    exact List.filter_sublist fields

/-- C2: mergeDataSafely overwrites the accumulator at a key exactly when the
incoming value at that key is non-empty (regardless of the accumulator value),
never overwrites with an empty incoming value, preserves keys absent from the
incoming record, and therefore never regresses a non-empty accumulator field
to empty. -/
theorem spec_c2_merge (A B : JsRec) (hB : (B.map Prod.fst).Nodup) :
    (∀ k v, getValue B k = some v → isEmpty (some v) = false →
      getValue (mergeDataSafely A B) k = some v)
    ∧ (∀ k, (∀ v, getValue B k = some v → isEmpty (some v) = true) →
      getValue (mergeDataSafely A B) k = getValue A k)
    ∧ (∀ k v, getValue A k = some v → isEmpty (some v) = false →
      ∃ w, getValue (mergeDataSafely A B) k = some w ∧ isEmpty (some w) = false) := by
  refine ⟨?_, ?_, ?_⟩
  · intro k v hv hne
    rw [getValue_mergeDataSafely A B k hB, hv]
    simp [hne]
  · intro k hBempty
    rw [getValue_mergeDataSafely A B k hB]
    cases hBk : getValue B k with
    | none => rfl
    | some v => simp [hBempty v hBk]
  · intro k v hA hne
    rw [getValue_mergeDataSafely A B k hB]
    cases hBk : getValue B k with
    | none => exact ⟨v, hA, hne⟩
    | some w =>
      by_cases hw : isEmpty (some w)
      · simpa [hw] using ⟨v, hA, hne⟩
      · exact ⟨w, by simp [hw], Bool.not_eq_true _ ▸ hw⟩

/-- Witness for C2 at a concrete accumulator and fetch result: the non-empty
incoming "new" overwrites the filled "old", and the incoming "N/A" does not
touch the absent email field. -/
theorem spec_c2_merge_witness :
    getValue (mergeDataSafely c2A c2B) "name" = some (JsValue.vStr "new")
    ∧ getValue (mergeDataSafely c2A c2B) "email" = getValue c2A "email" := by
  constructor
  · exact (spec_c2_merge c2A c2B (by decide)).1 "name" (JsValue.vStr "new")
      (by decide) (by decide)
  · refine (spec_c2_merge c2A c2B (by decide)).2.1 "email" ?_
    intro v hv
    have hv' : v = JsValue.vStr "N/A" := by
      have : some (JsValue.vStr "N/A") = some v := by
        rw [← hv]; decide
      exact (Option.some.inj this).symm
    subst hv'
    decide

/-- C5: filterValidFields keeps exactly the entries whose key is a schema field
name or hotel_uuid, with values unchanged and order preserved, silently
dropping every other key. -/
theorem spec_c5_filter (d : JsRec) (hd : (d.map Prod.fst).Nodup) :
    filterValidFields d = d.filter (fun kv => isValidKey kv.1)
    ∧ (∀ k, isValidKey k = true ↔ (k ∈ allFieldNames ∨ k = "hotel_uuid")) := by
  refine ⟨filterValid_eq_filter d hd, ?_⟩
  intro k
  simp [isValidKey, List.contains, List.elem_iff, allFieldNames, validFieldNames]

/-- Witness for C5: the malicious column is dropped, only name survives. -/
theorem spec_c5_filter_witness :
    filterValidFields c5Data = [("name", JsValue.vStr "Inn")] := by
  rw [(spec_c5_filter c5Data (by decide)).1]
  rfl

theorem removeUuid_not_uuid (data : JsRec) (k : String)
    (h : k ∈ (removeUuidKey data).map Prod.fst) : k ≠ "hotel_uuid" := by
  rw [removeUuidKey] at h
  simp only [List.mem_map] at h
  obtain ⟨kv, hkv, hfst⟩ := h
  rw [List.mem_filter] at hkv
  intro he
  have hne : kv.1 ≠ "hotel_uuid" := by simpa using hkv.2
  exact hne (hfst.trans he)

theorem removeUuid_nodup (data : JsRec) (hd : (data.map Prod.fst).Nodup) :
    ((removeUuidKey data).map Prod.fst).Nodup :=
  List.Nodup.sublist (List.Sublist.map Prod.fst (List.filter_sublist data)) hd

/-- C7: an update never writes the identifier even when it is present in the
input; the written column set is exactly the schema-filtered field set of the
input without the identifier, the query always touches the updated-at
timestamp, and the zero-valid-fields case is a non-error no-op returning
affected-count 0 regardless of the database. -/
theorem spec_c7_update (id : Nat) (data : JsRec) :
    (∀ q, updatePlan id data = some q →
      ("hotel_uuid" ∉ q.cols
        ∧ q.cols = (filterValidFields (removeUuidKey data)).map Prod.fst
        ∧ q.touchesUpdatedAt = true))
    ∧ (filterValidFields (removeUuidKey data) = [] →
      ∀ exec, updateMarketData id data exec = Except.ok 0) := by
  constructor
  · intro q hq
    simp only [updatePlan, convertBooleanValues_eq_id] at hq
    split at hq
    · exact absurd hq (by simp)
    · injection hq with h
      subst h
      refine ⟨?_, rfl, rfl⟩
      intro hmem
      have hk := filterValid_mem_keys (removeUuidKey data) "hotel_uuid" hmem
      exact removeUuid_not_uuid data "hotel_uuid" hk.2 rfl
  · intro hfe exec
    have hplan : updatePlan id data = none := by
      simp [updatePlan, convertBooleanValues_eq_id, hfe]
    simp [updateMarketData, hplan]

/-- Witness for C7: on a concrete input carrying hotel_uuid and a foreign
column the built update touches only name, and a no-valid-field input is a
non-error no-op even when the database would fail. -/
theorem spec_c7_update_witness :
    ("hotel_uuid" ∉ c7Query.cols
      ∧ c7Query.cols = (filterValidFields (removeUuidKey c7Data)).map Prod.fst
      ∧ c7Query.touchesUpdatedAt = true)
    ∧ updateMarketData 5 c7NoFieldData (fun _ => Except.error "never") = Except.ok 0 := by
  constructor
  · exact (spec_c7_update 5 c7Data).1 c7Query rfl
  · exact (spec_c7_update 5 c7NoFieldData).2 rfl
      (fun _ => Except.error "never")

/-- C8: both write paths filter through the schema first, so every column of a
built insert query is a schema field name or hotel_uuid, and every column of a
built update query is a schema field name (and never hotel_uuid). -/
theorem spec_c8_schema_invariant (data : JsRec) (id : Nat) :
    (∀ q, insertPlan data = Except.ok q → ∀ c ∈ q.cols, isValidKey c = true)
    ∧ (∀ q, updatePlan id data = some q → ∀ c ∈ q.cols,
        c ∈ validFieldNames ∧ c ≠ "hotel_uuid") := by
  constructor
  · intro q hq c hc
    simp only [insertPlan, convertBooleanValues_eq_id] at hq
    split at hq
    · exact absurd hq (by simp)
    · injection hq with h
      subst h
      exact (filterValid_mem_keys data c hc).1
  · intro q hq c hc
    simp only [updatePlan, convertBooleanValues_eq_id] at hq
    split at hq
    · exact absurd hq (by simp)
    · injection hq with h
      subst h
      have hk := filterValid_mem_keys (removeUuidKey data) c hc
      have hne : c ≠ "hotel_uuid" := removeUuid_not_uuid data c hk.2
      have hv : c ∈ validFieldNames ∨ c = "hotel_uuid" := by
        simpa [isValidKey, List.contains, List.elem_iff] using hk.1
      rcases hv with h' | h'
      · exact ⟨h', hne⟩
      · exact absurd h' hne

/-- Witness for C8 at concrete insert and update inputs. -/
theorem spec_c8_schema_invariant_witness :
    isValidKey "name" = true ∧ ("name" ∈ validFieldNames ∧ "name" ≠ "hotel_uuid") := by
  constructor
  · exact (spec_c8_schema_invariant c3InsertData 1).1 c3InsertQuery rfl "name" (by decide)
  · exact (spec_c8_schema_invariant c7Data 5).2 c7Query rfl "name" (by decide)

/-- C10: convertBooleanValues is the identity (BOOLEAN_FIELDS is empty), so
both write paths persist the schema-filtered entries entirely unchanged: the
built column and placeholder-value lists are exactly the keys and values of
the filtered record. -/
theorem spec_c10_boolean_conversion (data : JsRec) :
    convertBooleanValues data = data
    ∧ (∀ q, insertPlan data = Except.ok q →
        q.cols = (filterValidFields data).map Prod.fst
        ∧ q.vals = (filterValidFields data).map Prod.snd)
    ∧ (∀ id q, updatePlan id data = some q →
        q.cols = (filterValidFields (removeUuidKey data)).map Prod.fst
        ∧ q.vals = (filterValidFields (removeUuidKey data)).map Prod.snd) := by
  refine ⟨rfl, ?_, ?_⟩
  · intro q hq
    simp only [insertPlan, convertBooleanValues_eq_id] at hq
    split at hq
    · exact absurd hq (by simp)
    · injection hq with h
      subst h
      exact ⟨rfl, map_getValue_eq_vals (filterValidFields data) (filterValid_nodup data)⟩
  · intro id q hq
    simp only [updatePlan, convertBooleanValues_eq_id] at hq
    split at hq
    · exact absurd hq (by simp)
    · injection hq with h
      subst h
      exact ⟨rfl, map_getValue_eq_vals (filterValidFields (removeUuidKey data))
        (filterValid_nodup (removeUuidKey data))⟩

/-- Witness for C10 at a concrete record and insert query. -/
theorem spec_c10_boolean_conversion_witness :
    convertBooleanValues c10Data = c10Data
    ∧ c3InsertQuery.vals = (filterValidFields c3InsertData).map Prod.snd := by
  constructor
  · exact (spec_c10_boolean_conversion c10Data).1
  · exact ((spec_c10_boolean_conversion c3InsertData).2.1 c3InsertQuery rfl).2

/-- C3 amended: a found row yields its id and an absent row yields the
sentinel 0; insert and update pass the database outcome through unchanged
(errors are rethrown, including the no-valid-fields insert error); however, a
storage failure during the id lookup is ALSO silently converted into the
absence sentinel 0 by the catch block of getIdByUuid. -/
theorem spec_c3_amended :
    (∀ id, getIdByUuid (Except.ok (some id)) = id)
    ∧ getIdByUuid (Except.ok none) = 0
    ∧ (∀ e, getIdByUuid (Except.error e) = 0)
    ∧ (∀ data q exec, insertPlan data = Except.ok q →
        insertMarketData data exec = exec q)
    ∧ (∀ data e exec, insertPlan data = Except.error e →
        insertMarketData data exec = Except.error e)
    ∧ (∀ id data q exec, updatePlan id data = some q →
        updateMarketData id data exec = exec q) := by
  refine ⟨fun id => rfl, rfl, fun e => rfl, ?_, ?_, ?_⟩
  · intro data q exec hq
    simp [insertMarketData, hq]
  · intro data e exec hq
    simp [insertMarketData, hq]
  · intro id data q exec hq
    simp [updateMarketData, hq]

/-- Witness for C3 at a concrete insert whose database execution fails: the
failure propagates unchanged. -/
theorem spec_c3_amended_witness :
    insertMarketData c3InsertData (fun _ => Except.error "disk failure") =
      Except.error "disk failure" :=
  spec_c3_amended.2.2.2.1 c3InsertData c3InsertQuery
    (fun _ => Except.error "disk failure") rfl

/-- Counterexample for C3 as stated: a storage failure during the lookup IS
silently converted into the absence sentinel 0, indistinguishable from a
missing row. -/
theorem spec_c3_counterexample :
    getIdByUuid (Except.error "connection refused") = 0
    ∧ getIdByUuid (Except.error "connection refused") = getIdByUuid (Except.ok none) :=
  ⟨rfl, rfl⟩

/-- C9: when a persisted record exists but the id lookup yields the sentinel 0
(absent row or a lookup failure converted to 0), the save phase issues neither
an insert nor an update: the accumulated data is dropped and the cycle
completes without an error. -/
theorem spec_c9_zero_id_skips (r : JsRec) (uuid : String)
    (fetch : Nat → Except String JsRec) (maxAttempts : Nat) :
    (∀ e, (processHotelWithRetry (some r) (Except.error e) uuid fetch maxAttempts).save
        = SaveAction.skip)
    ∧ (processHotelWithRetry (some r) (Except.ok none) uuid fetch maxAttempts).save
        = SaveAction.skip := by
  constructor
  · intro e
    simp [processHotelWithRetry, savePhase, getIdByUuid]
  · simp [processHotelWithRetry, savePhase, getIdByUuid]

/-- Counterexample for C1 as stated: for an entity whose persisted record has
every schema field filled, the attempt loop still computes the full field list
as empty on attempt 1 (the detection consults only the in-memory accumulator,
which starts empty) and performs two fetch calls, not zero. -/
theorem spec_c1_counterexample :
    (allFieldNames.all (fun f => !(isEmpty (getValue fullRecord f)))) = true
    ∧ getEmptyFields (some ([] : JsRec)) allFieldNames = allFieldNames
    ∧ (processHotelWithRetry (some fullRecord) (Except.ok (some 1)) "u1"
        (fun _ => Except.error "network down") 2).fetchCalls = 2 := by
  refine ⟨by decide, getEmptyFields_empty_acc allFieldNames, by rfl⟩

/-- C1 amended: empty-field detection consults only the in-memory accumulator,
which starts empty, so even for an entity whose persisted record has every
schema field filled the loop computes the full field list as empty on attempt
1 and performs at least one external fetch call; the reconciler still runs on
the final accumulator. -/
theorem spec_c1_amended (r : JsRec) (idLookup : Except String (Option Nat))
    (uuid : String) (fetch : Nat → Except String JsRec) (maxAttempts : Nat)
    (hmax : 1 ≤ maxAttempts)
    (hfull : ∀ f ∈ allFieldNames, isEmpty (getValue r f) = false) :
    getEmptyFields (some ([] : JsRec)) allFieldNames = allFieldNames
    ∧ 1 ≤ (processHotelWithRetry (some r) idLookup uuid fetch maxAttempts).fetchCalls
    ∧ (processHotelWithRetry (some r) idLookup uuid fetch maxAttempts).save =
        savePhase (some r) idLookup uuid
          (processHotelWithRetry (some r) idLookup uuid fetch maxAttempts).accumulated := by
  refine ⟨getEmptyFields_empty_acc allFieldNames, ?_, rfl⟩
  obtain ⟨m, rfl⟩ : ∃ m, maxAttempts = m + 1 := ⟨maxAttempts - 1, by omega⟩
  have hne : getEmptyFields (some ([] : JsRec)) allFieldNames ≠ [] := by
    rw [getEmptyFields_empty_acc]; exact allFieldNames_ne_nil
  show 1 ≤ (retryGo fetch (m + 1) (m + 1) 0 [] 0).2.1
  simp only [retryGo]
  rw [if_neg hne]
  cases hf : fetch (0 + 1) with
  | ok newData =>
    by_cases hr : getEmptyFields (some (mergeDataSafely [] newData)) allFieldNames = []
    · simp [hr]
    · simp only [hr, if_neg hr]
      exact retryGo_calls_le fetch (m + 1) m (0 + 1) (mergeDataSafely [] newData) (0 + 1)
  | error e =>
    by_cases hm2 : m + 1 ≤ 0 + 1
    · simp [hm2]
    · simp only [if_neg hm2]
      exact retryGo_calls_le fetch (m + 1) m (0 + 1) [] (0 + 1)

/-- Witness for the amended C1 at a concrete fully-filled persisted record. -/
theorem spec_c1_amended_witness :
    getEmptyFields (some ([] : JsRec)) allFieldNames = allFieldNames
    ∧ 1 ≤ (processHotelWithRetry (some fullRecord) (Except.ok (some 1)) "u1"
        (fun _ => Except.error "x") 2).fetchCalls
    ∧ (processHotelWithRetry (some fullRecord) (Except.ok (some 1)) "u1"
        (fun _ => Except.error "x") 2).save =
      savePhase (some fullRecord) (Except.ok (some 1)) "u1"
        (processHotelWithRetry (some fullRecord) (Except.ok (some 1)) "u1"
          (fun _ => Except.error "x") 2).accumulated :=
  spec_c1_amended fullRecord (Except.ok (some 1)) "u1" (fun _ => Except.error "x") 2
    (by omega) (by decide)

/-- C6: when the fetch succeeds with partial data on attempt 1, the result
still leaves fields empty, and every later attempt up to the budget fails, the
loop terminates through the exhausted-error break, retains the accumulator
built on attempt 1, and the save phase runs on that retained accumulator
exactly as in the success cases. -/
theorem spec_c6_exhausted_retains (fetch : Nat → Except String JsRec)
    (maxAttempts : Nat) (partialData : JsRec) (existingData : Option JsRec)
    (idLookup : Except String (Option Nat)) (uuid : String)
    (hmax : 2 ≤ maxAttempts)
    (h1 : fetch 1 = Except.ok partialData)
    (hfail : ∀ k, 2 ≤ k → ∃ msg, fetch k = Except.error msg)
    (hrem : getEmptyFields (some (mergeDataSafely [] partialData)) allFieldNames ≠ []) :
    (processHotelWithRetry existingData idLookup uuid fetch maxAttempts).accumulated
        = mergeDataSafely [] partialData
    ∧ (processHotelWithRetry existingData idLookup uuid fetch maxAttempts).exit
        = LoopExit.errorExhausted
    ∧ (processHotelWithRetry existingData idLookup uuid fetch maxAttempts).save
        = savePhase existingData idLookup uuid (mergeDataSafely [] partialData) := by
  obtain ⟨m, rfl⟩ : ∃ m, maxAttempts = m + 2 := ⟨maxAttempts - 2, by omega⟩
  have hne : getEmptyFields (some ([] : JsRec)) allFieldNames ≠ [] := by
    rw [getEmptyFields_empty_acc]; exact allFieldNames_ne_nil
  have hloop : retryGo fetch (m + 2) (m + 2) 0 [] 0 =
      (mergeDataSafely [] partialData, m + 2, LoopExit.errorExhausted) := by
    have hstep : retryGo fetch (m + 2) (m + 2) 0 [] 0 =
        retryGo fetch (m + 2) (m + 1) (0 + 1) (mergeDataSafely [] partialData) (0 + 1) := by
      simp only [retryGo]
      rw [if_neg hne, Nat.zero_add, h1]
      simp only [if_neg hrem]
    rw [hstep, retryGo_allFail fetch (m + 2) (m + 1) (0 + 1)
      (mergeDataSafely [] partialData) (0 + 1) (by omega) (by omega)
      (fun k hk => hfail k (by omega)) hrem]
    simp only [Prod.mk.injEq, and_true, true_and]
    omega
  refine ⟨?_, ?_, ?_⟩ <;> simp [processHotelWithRetry, hloop]

/-- Witness for C6: partial success on attempt 1, failure on attempt 2 of 2. -/
theorem spec_c6_exhausted_retains_witness :
    (processHotelWithRetry none (Except.ok none) "u1" c6Fetch 2).accumulated
        = mergeDataSafely [] c6Partial
    ∧ (processHotelWithRetry none (Except.ok none) "u1" c6Fetch 2).exit
        = LoopExit.errorExhausted
    ∧ (processHotelWithRetry none (Except.ok none) "u1" c6Fetch 2).save
        = savePhase none (Except.ok none) "u1" (mergeDataSafely [] c6Partial) :=
  spec_c6_exhausted_retains c6Fetch 2 c6Partial none (Except.ok none) "u1"
    (by omega) (by rfl)
    (fun k hk => ⟨"boom", by
      have h : k ≠ 1 := by omega
      simp [c6Fetch, h]⟩)
    (by decide)
